import Mathlib

/-!
Verification of the stream_ml-pytorch statistical core against its
specification.

The repository's numeric code is elementwise over broadcastable arrays; we
embed it elementwise over `ℝ`.  Arrays appearing with genuine shape (the
control-point grid of the `ControlRegions` prior) are embedded as flattened
lists over the (control point, dependent column) pairs.

Sources embedded here:
- `src/stream_ml/pytorch/builtin/_skewnormal.py`
  (`skewnorm_logpdf`, `log_truncation_term`, `truncatedskewnorm_logpdf`,
   `SkewNormal`, `TruncatedSkewNormal`);
- `src/stream_ml/pytorch/prior/_track.py` (`ControlRegions`).
-/

noncomputable section

open Real

/-- `math.sqrt(2)`, the module-level constant `_sqrt2` of `_skewnormal.py`. -/
def _sqrt2 : ℝ := Real.sqrt 2

/-- The Gauss error function, `xp.erf` of the array backend:
`erf x = (2/√π) ∫ t in 0..x, exp (-t²)`. -/
def erf (x : ℝ) : ℝ := 2 / Real.sqrt Real.pi * ∫ t in (0:ℝ)..x, Real.exp (-t ^ 2)

/-- Modelled from the spec: `norm_logpdf` lives in
`stream_ml/pytorch/builtin/_normal.py`, which is not among the provided
sources; the spec states it is the standard Gaussian log-density
`-0.5*((value-loc)/sigma)^2 - log(sigma) - 0.5*log(2*pi)`. -/
def norm_logpdf (value loc sigma : ℝ) : ℝ :=
  -0.5 * ((value - loc) / sigma) ^ 2 - Real.log sigma - 0.5 * Real.log (2 * Real.pi)

/-- `skewnorm_logpdf` from `_skewnormal.py`:
`norm_logpdf(value, loc, sigma) + log(1 + erf(skew * (value - loc) / sigma / _sqrt2))`. -/
def skewnorm_logpdf (value loc sigma skew : ℝ) : ℝ :=
  norm_logpdf value loc sigma + Real.log (1 + erf (skew * (value - loc) / sigma / _sqrt2))

/-- `log_truncation_term` from `_skewnormal.py`.  The `skew` argument is
accepted and unused, exactly as in the source. -/
def log_truncation_term (ab : ℝ × ℝ) (loc sigma skew : ℝ) : ℝ :=
  let erfa := erf ((ab.1 - loc) / sigma / _sqrt2)
  let erfb := erf ((ab.2 - loc) / sigma / _sqrt2)
  Real.log (erfb - erfa) + Real.log (erfb + erfa + 2) - Real.log 4

/-- `truncatedskewnorm_logpdf` from `_skewnormal.py`:
`skewnorm_logpdf(value, loc, sigma, skew) - log_truncation_term(ab, loc, sigma, skew)`. -/
def truncatedskewnorm_logpdf (value loc sigma skew : ℝ) (ab : ℝ × ℝ) : ℝ :=
  skewnorm_logpdf value loc sigma skew - log_truncation_term ab loc sigma skew

/-- `erf 0 = 0`: the interval integral from `0` to `0` vanishes. -/
theorem erf_zero : erf 0 = 0 := by
  simp [erf]

end

/-- C1: for every value, loc, sigma, skew, `skewnorm_logpdf(value, loc, sigma,
skew)` equals the standard Gaussian log-density
`-0.5*((value-loc)/sigma)^2 - log(sigma) - 0.5*log(2*pi)` plus
`log(1 + erf(skew * (value - loc) / (sigma * sqrt 2)))`.  (Proved for all
real `sigma`, in particular for `sigma > 0` as the claim assumes.) -/
theorem skewnorm_logpdf_spec_formula (value loc sigma skew : ℝ) :
    skewnorm_logpdf value loc sigma skew =
      (-0.5 * ((value - loc) / sigma) ^ 2 - Real.log sigma
          - 0.5 * Real.log (2 * Real.pi))
        + Real.log (1 + erf (skew * (value - loc) / (sigma * Real.sqrt 2))) := by
  unfold skewnorm_logpdf norm_logpdf _sqrt2
  rw [div_div]

/-- C2: for every value, loc, sigma, skew and bounds `(a, b)`,
`truncatedskewnorm_logpdf` equals `skewnorm_logpdf` at the same
`loc, sigma, skew` minus the closed-form truncation term
`log(erfb - erfa) + log(erfb + erfa + 2) - log 4`, where
`erfa = erf((a-loc)/(sigma*√2))` and `erfb = erf((b-loc)/(sigma*√2))`.
(Proved for all real `sigma`, in particular for `sigma > 0`.) -/
theorem truncatedskewnorm_logpdf_spec_formula (value loc sigma skew a b : ℝ) :
    truncatedskewnorm_logpdf value loc sigma skew (a, b) =
      skewnorm_logpdf value loc sigma skew -
        (Real.log (erf ((b - loc) / (sigma * Real.sqrt 2))
              - erf ((a - loc) / (sigma * Real.sqrt 2)))
          + Real.log (erf ((b - loc) / (sigma * Real.sqrt 2))
              + erf ((a - loc) / (sigma * Real.sqrt 2)) + 2)
          - Real.log 4) := by
  unfold truncatedskewnorm_logpdf log_truncation_term _sqrt2
  rw [div_div, div_div]

/-- C7: for every value, loc and sigma, `skewnorm_logpdf` with `skew = 0`
equals the plain normal log-density `norm_logpdf` (the skew correction
`log(1 + erf 0)` vanishes); and at `value = loc` with `skew = 0` it equals
`-log sigma - 0.5 * log (2*pi)`.  (Proved for all real `sigma`, in
particular for `sigma > 0`.) -/
theorem skewnorm_logpdf_skew_zero (value loc sigma : ℝ) :
    skewnorm_logpdf value loc sigma 0 = norm_logpdf value loc sigma ∧
      skewnorm_logpdf loc loc sigma 0 =
        -Real.log sigma - 0.5 * Real.log (2 * Real.pi) := by
  have h : ∀ v : ℝ, skewnorm_logpdf v loc sigma 0 = norm_logpdf v loc sigma := by
    intro v
    unfold skewnorm_logpdf
    simp [erf_zero]
  refine ⟨h value, ?_⟩
  rw [h loc]
  unfold norm_logpdf
  simp

noncomputable section

/-- `xp.clip(x, 1e-10)` of the array backend: clamp to the minimum `lo`,
i.e. `max x lo` elementwise. -/
def clip (x lo : ℝ) : ℝ := max x lo

/-- The `SkewNormal` model of `_skewnormal.py`, restricted to the
configuration the claims are about: its tuple of coordinate names. -/
structure SkewNormal where
  coord_names : List String

/-- The `TruncatedSkewNormal` model of `_skewnormal.py`: coordinate names
plus the configured per-coordinate `(lower, upper)` bounds. -/
structure TruncatedSkewNormal where
  coord_names : List String
  coord_bounds : String → ℝ × ℝ

/-- The coordinate-count validation in `SkewNormal.__post_init__`:
`if len(self.coord_names) != 1: raise ValueError(msg)`. -/
def SkewNormal.post_init_coord_check (coord_names : List String) :
    Except String Unit :=
  if coord_names.length ≠ 1 then
    Except.error "Only one coordinate is supported, e.g (phi2,)"
  else
    Except.ok ()

/-- The identical coordinate-count validation in
`TruncatedSkewNormal.__post_init__`. -/
def TruncatedSkewNormal.post_init_coord_check (coord_names : List String) :
    Except String Unit :=
  if coord_names.length ≠ 1 then
    Except.error "Only one coordinate is supported, e.g (phi2,)"
  else
    Except.ok ()

/-- `SkewNormal.ln_likelihood`: evaluates `skewnorm_logpdf` on the configured
coordinate's data column, with `mu` as is and `sigma`, `skew` clipped to at
least `1e-10`.  `mpars` is the params mapping `(coord, name) ↦ value` and
`data` the per-coordinate data column, both elementwise. -/
def SkewNormal.ln_likelihood (m : SkewNormal) (mpars : String → String → ℝ)
    (data : String → ℝ) : ℝ :=
  let c := m.coord_names.headI
  skewnorm_logpdf (data c) (mpars c "mu") (clip (mpars c "sigma") 1e-10)
    (clip (mpars c "skew") 1e-10)

/-- `TruncatedSkewNormal.ln_likelihood`: same as `SkewNormal.ln_likelihood`
but via `truncatedskewnorm_logpdf`, passing the coordinate's configured
bounds `self.coord_bounds[self.coord_names[0]]`. -/
def TruncatedSkewNormal.ln_likelihood (m : TruncatedSkewNormal)
    (mpars : String → String → ℝ) (data : String → ℝ) : ℝ :=
  let c := m.coord_names.headI
  truncatedskewnorm_logpdf (data c) (mpars c "mu") (clip (mpars c "sigma") 1e-10)
    (clip (mpars c "skew") 1e-10) (m.coord_bounds m.coord_names.headI)

end

/-- C5: for every coordinate name, params and data, `SkewNormal.ln_likelihood`
returns `skewnorm_logpdf` on the coordinate's data column with
`loc = mpars[(c, mu)]`, `sigma = mpars[(c, sigma)]` clipped to at least
`1e-10` and `skew = mpars[(c, skew)]` clipped to at least `1e-10`;
`TruncatedSkewNormal.ln_likelihood` does the same via
`truncatedskewnorm_logpdf`, additionally passing the coordinate's configured
bounds. -/
theorem ln_likelihood_wiring (c : String) (bounds : String → ℝ × ℝ)
    (mpars : String → String → ℝ) (data : String → ℝ) :
    (SkewNormal.mk [c]).ln_likelihood mpars data =
        skewnorm_logpdf (data c) (mpars c "mu") (max (mpars c "sigma") 1e-10)
          (max (mpars c "skew") 1e-10) ∧
      (TruncatedSkewNormal.mk [c] bounds).ln_likelihood mpars data =
        truncatedskewnorm_logpdf (data c) (mpars c "mu")
          (max (mpars c "sigma") 1e-10) (max (mpars c "skew") 1e-10)
          (bounds c) :=
  ⟨rfl, rfl⟩

/-- C6: constructing `SkewNormal` or `TruncatedSkewNormal` with a number of
coordinate names different from one fails the construction-time validation
with a configuration error, and with exactly one coordinate name the
validation succeeds. -/
theorem coord_names_validation (ns : List String) :
    (ns.length ≠ 1 →
        SkewNormal.post_init_coord_check ns =
            Except.error "Only one coordinate is supported, e.g (phi2,)" ∧
          TruncatedSkewNormal.post_init_coord_check ns =
            Except.error "Only one coordinate is supported, e.g (phi2,)") ∧
      (ns.length = 1 →
        SkewNormal.post_init_coord_check ns = Except.ok () ∧
          TruncatedSkewNormal.post_init_coord_check ns = Except.ok ()) := by
  constructor
  · intro h
    simp [SkewNormal.post_init_coord_check,
      TruncatedSkewNormal.post_init_coord_check, h]
  · intro h
    simp [SkewNormal.post_init_coord_check,
      TruncatedSkewNormal.post_init_coord_check, h]

/-- Witness for C6: two coordinate names are rejected and one is accepted. -/
theorem coord_names_validation_witness :
    (SkewNormal.post_init_coord_check ["phi1", "phi2"] =
          Except.error "Only one coordinate is supported, e.g (phi2,)" ∧
        TruncatedSkewNormal.post_init_coord_check ["phi1", "phi2"] =
          Except.error "Only one coordinate is supported, e.g (phi2,)") ∧
      (SkewNormal.post_init_coord_check ["phi2"] = Except.ok () ∧
        TruncatedSkewNormal.post_init_coord_check ["phi2"] = Except.ok ()) :=
  ⟨(coord_names_validation ["phi1", "phi2"]).1 (by decide),
    (coord_names_validation ["phi2"]).2 (by decide)⟩

noncomputable section

/-- Four-list pointwise combination, used to embed torch masked assignment
`pdf[where] = f(...)` over parallel flattened arrays. -/
def zipWith4R (f : ℝ → ℝ → ℝ → ℝ → ℝ) :
    List ℝ → List ℝ → List ℝ → List ℝ → List ℝ
  | a :: as, b :: bs, c :: cs, d :: ds => f a b c d :: zipWith4R f as bs cs ds
  | _, _, _, _ => []

/-- Three-list pointwise combination, used to state the sum-of-elementwise
penalties form of the prior. -/
def zipWith3R (f : ℝ → ℝ → ℝ → ℝ) : List ℝ → List ℝ → List ℝ → List ℝ
  | a :: as, b :: bs, c :: cs => f a b c :: zipWith3R f as bs cs
  | _, _, _ => []

/-- The `ControlRegions` prior of `_track.py`, after `__post_init__`:
`x` is `_x` (the independent-axis control-point coordinates), `y` is `_y`
(the dependent targets) and `w` is `_w` (the widths), both flattened over
the (control point, dependent column) grid, plus the `lamda` weight. -/
structure ControlRegions where
  x : List ℝ
  y : List ℝ
  w : List ℝ
  lamda : ℝ

/-- `ControlRegions.__post_init__` with a float `width`: the stored widths
are `ones_like(_y) * width`. -/
def ControlRegions.make (x y : List ℝ) (width lamda : ℝ) : ControlRegions :=
  ⟨x, y, y.map fun _ => width, lamda⟩

/-- First masked assignment of `ControlRegions.logpdf`:
`pdf[cmp <= y - w] = (cmp - (y - w))**2`, elementwise over the grid. -/
def maskLow (cmp y w pdf : List ℝ) : List ℝ :=
  zipWith4R (fun c yy ww p => if c ≤ yy - ww then (c - (yy - ww)) ^ 2 else p)
    cmp y w pdf

/-- Second masked assignment of `ControlRegions.logpdf`:
`pdf[cmp >= y + w] = (cmp - (y + w))**2`, elementwise over the grid,
overriding the first one where both conditions hold. -/
def maskHigh (cmp y w pdf : List ℝ) : List ℝ :=
  zipWith4R (fun c yy ww p => if yy + ww ≤ c then (c - (yy + ww)) ^ 2 else p)
    cmp y w pdf

/-- `ControlRegions.logpdf`: query the model at the stored control-point
coordinates `x` (`model.unpack_params(model(self._x))`, abstracted as the
function `model` from coordinate to predicted parameter value), start from
`zeros_like`, apply the two masked assignments, and return
`-lamda * sum(pdf)`.  The `current_lnpdf` argument is accepted and unused,
as in the source. -/
def ControlRegions.logpdf (p : ControlRegions) (model : ℝ → ℝ)
    (current_lnpdf : Option ℝ) : ℝ :=
  let cmp := p.x.map model
  let pdf0 := cmp.map fun _ => (0 : ℝ)
  let pdf1 := maskLow cmp p.y p.w pdf0
  let pdf2 := maskHigh cmp p.y p.w pdf1
  (-p.lamda) * pdf2.sum

/-- The elementwise value computed by the two masked assignments of
`ControlRegions.logpdf` at a (predicted, target, width) triple: the second
assignment wins where both masks hold. -/
def penaltyElem (c y w : ℝ) : ℝ :=
  if y + w ≤ c then (c - (y + w)) ^ 2
  else if c ≤ y - w then (c - (y - w)) ^ 2
  else 0

end

/-- The masked-assignment pipeline computes `penaltyElem` pointwise. -/
theorem maskHigh_maskLow_eq_penaltyElem (cmp y w : List ℝ)
    (hy : y.length = cmp.length) (hw : w.length = cmp.length) :
    maskHigh cmp y w (maskLow cmp y w (cmp.map fun _ => (0 : ℝ))) =
      zipWith3R penaltyElem cmp y w := by
  induction cmp generalizing y w with
  | nil =>
    cases y with
    | nil => rfl
    | cons b bs => simp at hy
  | cons a as ih =>
    cases y with
    | nil => simp at hy
    | cons b bs =>
      cases w with
      | nil => simp at hw
      | cons c cs =>
        simp only [List.length_cons, Nat.succ.injEq] at hy hw
        simp only [List.map_cons, maskLow, maskHigh, zipWith4R, zipWith3R,
          penaltyElem]
        exact congrArg _ (ih bs cs hy hw)

/-- Every element produced by the masked-assignment pipeline is nonnegative:
it is a square or the initial zero. -/
theorem pdf_pipeline_nonneg (cmp y w : List ℝ) :
    ∀ r ∈ maskHigh cmp y w (maskLow cmp y w (cmp.map fun _ => (0 : ℝ))),
      0 ≤ r := by
  have key : ∀ (as bs cs ps : List ℝ), (∀ q ∈ ps, 0 ≤ q) →
      ∀ r ∈ maskLow as bs cs ps, 0 ≤ r := by
    intro as
    induction as with
    | nil => intro bs cs ps _ r hr; simp [maskLow, zipWith4R] at hr
    | cons a as ih =>
      intro bs cs ps hps r hr
      cases bs with
      | nil => simp [maskLow, zipWith4R] at hr
      | cons b bs =>
        cases cs with
        | nil => simp [maskLow, zipWith4R] at hr
        | cons c cs =>
          cases ps with
          | nil => simp [maskLow, zipWith4R] at hr
          | cons p ps =>
            simp only [maskLow, zipWith4R, List.mem_cons] at hr
            rcases hr with h | h
            · subst h
              split
              · positivity
              · exact hps p (List.mem_cons_self p ps)
            · exact ih bs cs ps (fun q hq => hps q (List.mem_cons_of_mem p hq))
                r h
  have key2 : ∀ (as bs cs ps : List ℝ), (∀ q ∈ ps, 0 ≤ q) →
      ∀ r ∈ maskHigh as bs cs ps, 0 ≤ r := by
    intro as
    induction as with
    | nil => intro bs cs ps _ r hr; simp [maskHigh, zipWith4R] at hr
    | cons a as ih =>
      intro bs cs ps hps r hr
      cases bs with
      | nil => simp [maskHigh, zipWith4R] at hr
      | cons b bs =>
        cases cs with
        | nil => simp [maskHigh, zipWith4R] at hr
        | cons c cs =>
          cases ps with
          | nil => simp [maskHigh, zipWith4R] at hr
          | cons p ps =>
            simp only [maskHigh, zipWith4R, List.mem_cons] at hr
            rcases hr with h | h
            · subst h
              split
              · positivity
              · exact hps p (List.mem_cons_self p ps)
            · exact ih bs cs ps (fun q hq => hps q (List.mem_cons_of_mem p hq))
                r h
  intro r hr
  refine key2 _ _ _ _ ?_ r hr
  intro q hq
  refine key _ _ _ _ ?_ q hq
  intro q' hq'
  rcases List.mem_map.1 hq' with ⟨t, ht, h⟩
  exact le_of_eq h

/-- C3: with a nonnegative width, the elementwise penalty is `0` strictly
inside `(y - w, y + w)`, equals `(c - (y - w))²` when `c ≤ y - w`, equals
`(c - (y + w))²` when `c ≥ y + w`, is strictly positive strictly outside the
band, and takes the value `0` at both band edges. -/
theorem penaltyElem_piecewise (c y w : ℝ) (h : 0 ≤ w) :
    (y - w < c → c < y + w → penaltyElem c y w = 0) ∧
      (c ≤ y - w → penaltyElem c y w = (c - (y - w)) ^ 2) ∧
      (y + w ≤ c → penaltyElem c y w = (c - (y + w)) ^ 2) ∧
      (c < y - w → 0 < penaltyElem c y w) ∧
      (y + w < c → 0 < penaltyElem c y w) ∧
      penaltyElem (y - w) y w = 0 ∧
      penaltyElem (y + w) y w = 0 := by
  unfold penaltyElem
  refine ⟨?_, ?_, ?_, ?_, ?_, ?_, ?_⟩
  · intro h1 h2
    split_ifs with ha hb
    · linarith
    · linarith
    · rfl
  · intro h1
    split_ifs with ha
    · have hw0 : w = 0 := le_antisymm (by linarith) h
      subst hw0
      ring_nf
    · rfl
  · intro h1
    split_ifs
    rfl
  · intro h1
    split_ifs with ha hb
    · linarith
    · exact pow_two_pos_of_ne_zero ((by linarith : c - (y - w) < 0).ne)
    · exact absurd (le_of_lt h1) hb
  · intro h1
    split_ifs with ha hb
    · exact pow_two_pos_of_ne_zero ((by linarith : 0 < c - (y + w)).ne')
    · linarith
    · linarith
  · split_ifs with ha hb
    · have hw0 : w = 0 := le_antisymm (by linarith) h
      subst hw0
      ring_nf
    · ring_nf
    · exact absurd le_rfl hb
  · split_ifs with ha hb
    · ring_nf
    · exact absurd le_rfl ha
    · exact absurd le_rfl ha

/-- Witness for C3, at `c = 3`, `y = 2`, `w = 0.5`. -/
theorem penaltyElem_piecewise_witness :
    (0 : ℝ) ≤ 0.5 ∧ penaltyElem 3 2 0.5 = ((3 : ℝ) - (2 + 0.5)) ^ 2 :=
  ⟨by norm_num,
    (penaltyElem_piecewise 3 2 0.5 (by norm_num)).2.2.1 (by norm_num)⟩

/-- C4: on matching shapes, `ControlRegions.logpdf` returns `-lamda` times
the sum of the elementwise penalties over the (control point, dependent
column) pairs; and with `lamda = 0` it returns exactly `0` for any
predictions. -/
theorem controlRegions_logpdf_eq_neg_lamda_sum (p : ControlRegions)
    (model : ℝ → ℝ) (lnp : Option ℝ) :
    (p.y.length = p.x.length → p.w.length = p.x.length →
        p.logpdf model lnp =
          (-p.lamda) * (zipWith3R penaltyElem (p.x.map model) p.y p.w).sum) ∧
      (p.lamda = 0 → p.logpdf model lnp = 0) := by
  have hdef : p.logpdf model lnp =
      (-p.lamda) * (maskHigh (p.x.map model) p.y p.w
        (maskLow (p.x.map model) p.y p.w
          ((p.x.map model).map fun _ => (0 : ℝ)))).sum := rfl
  constructor
  · intro hy hw
    rw [hdef, maskHigh_maskLow_eq_penaltyElem (p.x.map model) p.y p.w
      (by simpa using hy) (by simpa using hw)]
  · intro h0
    rw [hdef, h0]
    ring

/-- Witness for C4, at a one-point prior. -/
theorem controlRegions_logpdf_eq_neg_lamda_sum_witness :
    ControlRegions.logpdf ⟨[10], [2], [0.5], 0.05⟩ (fun _ => 3) none =
        (-(0.05 : ℝ)) *
          (zipWith3R penaltyElem ([(10 : ℝ)].map fun _ => (3 : ℝ)) [2] [0.5]).sum ∧
      ControlRegions.logpdf ⟨[10], [2], [0.5], 0⟩ (fun _ => 3) none = 0 :=
  ⟨(controlRegions_logpdf_eq_neg_lamda_sum ⟨[10], [2], [0.5], 0.05⟩
      (fun _ => 3) none).1 rfl rfl,
    (controlRegions_logpdf_eq_neg_lamda_sum ⟨[10], [2], [0.5], 0⟩
      (fun _ => 3) none).2 rfl⟩

/-- C8: a `ControlRegions` prior built from a single control point at
coordinate `10.0` with dependent target `2.0`, width `0.5` and
`lamda = 0.05` returns `0` when the model predicts `2.0` there, and returns
`-0.05 * (3.0 - 2.5)^2 = -0.0125` when the model predicts `3.0`. -/
theorem controlRegions_example_end_to_end :
    ControlRegions.logpdf (ControlRegions.make [10] [2] 0.5 0.05)
        (fun _ => 2) none = 0 ∧
      ControlRegions.logpdf (ControlRegions.make [10] [2] 0.5 0.05)
        (fun _ => 3) none = -0.0125 := by
  constructor
  · norm_num [ControlRegions.logpdf, ControlRegions.make, maskLow, maskHigh,
      zipWith4R]
  · norm_num [ControlRegions.logpdf, ControlRegions.make, maskLow, maskHigh,
      zipWith4R]

/-- C9: `ControlRegions.logpdf` returns the same value for any two values of
the `current_lnpdf` argument: the argument is ignored and never added to the
returned term. -/
theorem controlRegions_logpdf_ignores_current_lnpdf (p : ControlRegions)
    (model : ℝ → ℝ) (c1 c2 : Option ℝ) :
    p.logpdf model c1 = p.logpdf model c2 := rfl

/-- C10: with `lamda ≥ 0`, `ControlRegions.logpdf` is at most `0`: every
elementwise penalty is a square or zero, their sum is nonnegative, and the
result is `-lamda` times that sum. -/
theorem controlRegions_logpdf_nonpos (p : ControlRegions) (model : ℝ → ℝ)
    (lnp : Option ℝ) (h : 0 ≤ p.lamda) : p.logpdf model lnp ≤ 0 := by
  have hdef : p.logpdf model lnp =
      (-p.lamda) * (maskHigh (p.x.map model) p.y p.w
        (maskLow (p.x.map model) p.y p.w
          ((p.x.map model).map fun _ => (0 : ℝ)))).sum := rfl
  have hsum : 0 ≤ (maskHigh (p.x.map model) p.y p.w
      (maskLow (p.x.map model) p.y p.w
        ((p.x.map model).map fun _ => (0 : ℝ)))).sum :=
    List.sum_nonneg (pdf_pipeline_nonneg (p.x.map model) p.y p.w)
  rw [hdef]
  have := mul_nonneg h hsum
  linarith

/-- Witness for C10, at a one-point prior with `lamda = 0.05`. -/
theorem controlRegions_logpdf_nonpos_witness :
    (0 : ℝ) ≤ 0.05 ∧
      ControlRegions.logpdf ⟨[10], [2], [0.5], 0.05⟩ (fun _ => 3) none ≤ 0 :=
  ⟨by norm_num,
    controlRegions_logpdf_nonpos ⟨[10], [2], [0.5], 0.05⟩ (fun _ => 3) none
      (by norm_num)⟩
